/-
Verification of the mfsender M98 macro subsystem
(migration, per-record storage, M98 expansion, execute dispatch).

The JavaScript sources are shallowly embedded: the filesystem state visible
to the macro subsystem (migration marker, per-record `.macro` files, legacy
`macros.json`, its backup, and `settings.json`) is an explicit `FsState`
record, and every side-effecting function becomes a state-passing Lean
function.  JSON file contents are modelled post-parse: a `.macro` file is
either unreadable/unparsable (`MacroFile.bad`) or a parsed record; the legacy
file is unparsable, a non-array JSON value, or an array of legacy records.
JavaScript numbers that arise here are integer-valued (parseInt with radix
10), so they are modelled as `Int` with exact arithmetic.
-/
import Mathlib

namespace Mfsender

/-! ### JavaScript primitives: `Number.parseInt(s, 10)` and `String(n)` -/

/-- The digit characters `'0'`–`'9'`. -/
def decDigits : List Char := ['0', '1', '2', '3', '4', '5', '6', '7', '8', '9']

/-- Accumulating decimal value of a digit character list, as in the body of a
`parseInt` loop: `acc * 10 + (c - '0')`. -/
def parseDigitsAcc (a : Nat) : List Char → Nat
  | [] => a
  | c :: cs => parseDigitsAcc (a * 10 + (c.toNat - 48)) cs

/-- After the optional sign, `parseInt` takes the longest prefix of decimal
digits; an empty digit prefix models a `NaN` result. -/
def jsParseIntFrom (sign : Int) (cs : List Char) : Option Int :=
  let ds := cs.takeWhile (fun c => c.isDigit)
  if ds.isEmpty then none
  else some (sign * (parseDigitsAcc 0 ds : Int))

/-- `Number.parseInt(s, 10)`: skip leading whitespace, read an optional sign,
then the longest prefix of decimal digits; `none` models `NaN` (no digits).
Values are exact integers (every integer produced by this program is far below
2^53, so JavaScript float rounding never occurs). -/
def jsParseInt (s : String) : Option Int :=
  match s.data.dropWhile (fun c => c.isWhitespace) with
  | [] => none
  | c :: rest =>
    if c = '-' then jsParseIntFrom (-1) rest
    else if c = '+' then jsParseIntFrom 1 rest
    else jsParseIntFrom 1 (c :: rest)

/-- Fuel-driven decimal digit expansion of a natural number, most significant
digit first (`fuel` bounds the digit count; `n + 1` always suffices). -/
def natToDecChars : Nat → Nat → List Char → List Char
  | 0, _, acc => acc
  | fuel + 1, n, acc =>
    if n < 10 then Nat.digitChar (n % 10) :: acc
    else natToDecChars fuel (n / 10) (Nat.digitChar (n % 10) :: acc)

/-- Decimal rendering of a natural number, as `String(n)` for `n ≥ 0`. -/
def natToDecString (n : Nat) : String := String.mk (natToDecChars (n + 1) n [])

/-- `String(n)` for an exact integer-valued JavaScript number. -/
def intToDecString (n : Int) : String :=
  if n < 0 then "-" ++ natToDecString n.natAbs else natToDecString n.toNat

theorem digitChar_mem_decDigits {m : Nat} (h : m < 10) :
    Nat.digitChar m ∈ decDigits := by
  interval_cases m <;> decide

theorem decDigits_facts : ∀ c ∈ decDigits,
    c.isDigit = true ∧ c.isWhitespace = false ∧ c ≠ '-' ∧ c ≠ '+' := by
  decide

theorem digitChar_toNat_sub {m : Nat} (h : m < 10) :
    (Nat.digitChar m).toNat - 48 = m := by
  interval_cases m <;> decide

/-- Structure of `natToDecChars`: a digit head followed by digits and then the
initial accumulator's elements. -/
theorem natToDecChars_shape :
    ∀ (fuel n : Nat) (acc : List Char), 0 < fuel →
      ∃ c cs, natToDecChars fuel n acc = c :: cs ∧ c ∈ decDigits ∧
        ∀ x ∈ cs, x ∈ acc ∨ x ∈ decDigits := by
  intro fuel
  induction fuel with
  | zero => intro n acc h; omega
  | succ f ih =>
    intro n acc _
    rw [natToDecChars]
    by_cases hn : n < 10
    · refine ⟨Nat.digitChar (n % 10), acc, by simp [hn], ?_, fun x hx => Or.inl hx⟩
      exact digitChar_mem_decDigits (Nat.mod_lt _ (by norm_num))
    · rcases Nat.eq_zero_or_pos f with rfl | hf
      · refine ⟨Nat.digitChar (n % 10), acc, by simp [hn, natToDecChars], ?_,
          fun x hx => Or.inl hx⟩
        exact digitChar_mem_decDigits (Nat.mod_lt _ (by norm_num))
      · obtain ⟨c, cs, hrec, hc, hcs⟩ := ih (n / 10) (Nat.digitChar (n % 10) :: acc) hf
        refine ⟨c, cs, by simp [hn, hrec], hc, ?_⟩
        intro x hx
        rcases hcs x hx with hmem | hd
        · rcases List.mem_cons.mp hmem with rfl | ha
          · exact Or.inr (digitChar_mem_decDigits (Nat.mod_lt _ (by norm_num)))
          · exact Or.inl ha
        · exact Or.inr hd

/-- Number of digits `natToDecChars` emits with the given fuel. -/
def decLen : Nat → Nat → Nat
  | 0, _ => 0
  | fuel + 1, n => if n < 10 then 1 else decLen fuel (n / 10) + 1

/-- Evaluating the parse fold over the emitted digits recovers the number
(given sufficient fuel). -/
theorem parseDigitsAcc_natToDecChars :
    ∀ (fuel n : Nat), n < 10 ^ fuel → ∀ (acc : List Char) (a : Nat),
      parseDigitsAcc a (natToDecChars fuel n acc) =
        parseDigitsAcc (a * 10 ^ decLen fuel n + n) acc := by
  intro fuel
  induction fuel with
  | zero =>
    intro n hn acc a
    interval_cases n
    simp [natToDecChars, decLen]
  | succ f ih =>
    intro n hn acc a
    have hd : (Nat.digitChar (n % 10)).toNat - 48 = n % 10 :=
      digitChar_toNat_sub (Nat.mod_lt _ (by norm_num))
    rw [natToDecChars]
    by_cases h : n < 10
    · rw [if_pos h]
      have hn10 : n % 10 = n := Nat.mod_eq_of_lt h
      rw [decLen, if_pos h]
      show parseDigitsAcc (a * 10 + ((Nat.digitChar (n % 10)).toNat - 48)) acc = _
      rw [hd, hn10, pow_one]
    · rw [if_neg h]
      have hdiv : n / 10 < 10 ^ f := by
        rw [Nat.pow_succ] at hn
        omega
      rw [ih (n / 10) hdiv]
      rw [decLen, if_neg h]
      show parseDigitsAcc ((a * 10 ^ decLen f (n / 10) + n / 10) * 10 +
        ((Nat.digitChar (n % 10)).toNat - 48)) acc = _
      rw [hd]
      congr 1
      rw [Nat.pow_succ]
      have hmod : n / 10 * 10 + n % 10 = n := by omega
      calc (a * 10 ^ decLen f (n / 10) + n / 10) * 10 + n % 10
          = a * (10 ^ decLen f (n / 10) * 10) + (n / 10 * 10 + n % 10) := by ring
        _ = a * (10 ^ decLen f (n / 10) * 10) + n := by rw [hmod]

theorem takeWhile_isDigit_of_all {l : List Char}
    (h : ∀ x ∈ l, x ∈ decDigits) : l.takeWhile (fun c => c.isDigit) = l := by
  induction l with
  | nil => rfl
  | cons c cs ih =>
    have hc := (decDigits_facts c (h c (List.mem_cons_self c cs))).1
    rw [List.takeWhile_cons]
    simp only [hc, if_pos]
    rw [ih (fun x hx => h x (List.mem_cons_of_mem c hx))]

theorem jsParseIntFrom_digits (sign : Int) (c : Char) (cs : List Char)
    (hall : ∀ x ∈ c :: cs, x ∈ decDigits) :
    jsParseIntFrom sign (c :: cs) =
      some (sign * (parseDigitsAcc 0 (c :: cs) : Nat)) := by
  rw [jsParseIntFrom]
  rw [takeWhile_isDigit_of_all hall]
  rfl

/-- The value computed by the parse fold on a full rendering. -/
theorem parseDigitsAcc_natToDecString (n : Nat) :
    parseDigitsAcc 0 (natToDecChars (n + 1) n []) = n := by
  have h := parseDigitsAcc_natToDecChars (n + 1) n
    (lt_of_lt_of_le (Nat.lt_pow_self (by norm_num) n)
      (Nat.pow_le_pow_right (by norm_num) (Nat.le_succ n))) [] 0
  rw [h]
  show 0 * 10 ^ decLen (n + 1) n + n = n
  rw [zero_mul, zero_add]

/-- Parsing back the decimal rendering of a natural number recovers it. -/
theorem jsParseInt_natToDecString (n : Nat) :
    jsParseInt (natToDecString n) = some (n : Int) := by
  obtain ⟨c, cs, hshape, hc, hcs⟩ :=
    natToDecChars_shape (n + 1) n [] (Nat.succ_pos n)
  have hall : ∀ x ∈ c :: cs, x ∈ decDigits := by
    intro x hx
    rcases List.mem_cons.mp hx with rfl | hxs
    · exact hc
    · rcases hcs x hxs with hf | hd
      · cases hf
      · exact hd
  have hfacts := decDigits_facts c hc
  have hdrop : (natToDecString n).data.dropWhile (fun c => c.isWhitespace) =
      c :: cs := by
    have hdata : (natToDecString n).data = c :: cs := hshape
    rw [hdata, List.dropWhile_cons, hfacts.2.1]
    simp
  rw [jsParseInt, hdrop]
  show (if c = '-' then jsParseIntFrom (-1) cs
    else if c = '+' then jsParseIntFrom 1 cs
    else jsParseIntFrom 1 (c :: cs)) = some (n : Int)
  rw [if_neg hfacts.2.2.1, if_neg hfacts.2.2.2]
  rw [jsParseIntFrom_digits 1 c cs hall]
  have hval : parseDigitsAcc 0 (c :: cs) = n := by
    rw [← hshape]
    exact parseDigitsAcc_natToDecString n
  rw [hval, one_mul]

/-- Parsing back the decimal rendering of any exact integer recovers it. -/
theorem jsParseInt_intToDecString (n : Int) :
    jsParseInt (intToDecString n) = some n := by
  rw [intToDecString]
  by_cases h : n < 0
  · rw [if_pos h]
    obtain ⟨c, cs, hshape, hc, hcs⟩ :=
      natToDecChars_shape (n.natAbs + 1) n.natAbs [] (Nat.succ_pos _)
    have hall : ∀ x ∈ c :: cs, x ∈ decDigits := by
      intro x hx
      rcases List.mem_cons.mp hx with rfl | hxs
      · exact hc
      · rcases hcs x hxs with hf | hd
        · cases hf
        · exact hd
    have hfacts := decDigits_facts c hc
    have hdrop : ("-" ++ natToDecString n.natAbs).data.dropWhile
        (fun c => c.isWhitespace) = '-' :: c :: cs := by
      have hdata : ("-" ++ natToDecString n.natAbs).data = '-' :: c :: cs := by
        rw [String.data_append]
        have : (natToDecString n.natAbs).data = c :: cs := hshape
        rw [this]
        rfl
      rw [hdata, List.dropWhile_cons]
      rw [if_neg (by decide)]
    rw [jsParseInt, hdrop]
    show (if '-' = '-' then jsParseIntFrom (-1) (c :: cs)
      else if '-' = '+' then jsParseIntFrom 1 (c :: cs)
      else jsParseIntFrom 1 ('-' :: c :: cs)) = some n
    rw [if_pos rfl]
    rw [jsParseIntFrom_digits (-1) c cs hall]
    have hval : parseDigitsAcc 0 (c :: cs) = n.natAbs := by
      rw [← hshape]
      exact parseDigitsAcc_natToDecString n.natAbs
    rw [hval]
    congr 1
    omega
  · rw [if_neg h]
    rw [jsParseInt_natToDecString]
    congr 1
    omega

theorem natToDecString_eq_intToDecString (n : Nat) :
    natToDecString n = intToDecString (n : Int) := by
  rw [intToDecString, if_neg (by omega)]
  rfl

theorem intToDecString_injective : Function.Injective intToDecString := by
  intro a b h
  have ha := jsParseInt_intToDecString a
  have hb := jsParseInt_intToDecString b
  rw [h, hb] at ha
  exact (Option.some.injEq _ _).mp ha.symm

/-! ### Data model

A macro record as persisted in one `<id>.macro` file.  JSON string fields are
modelled as strings; an absent or empty (falsy) `id` is modelled as `""`,
which `parseMacroFile` rejects exactly as `!parsed.id` does. -/

structure Macro where
  id : String
  name : String
  description : String
  commands : String
  createdAt : String
  updatedAt : String
deriving DecidableEq, Repr

/-- Content of one file in the `macros/` directory, post-parse: `bad` models
empty, unreadable, unparsable, or non-object JSON content. -/
inductive MacroFile
  | bad
  | record (m : Macro)
deriving DecidableEq, Repr

/-- One record of the legacy `macros.json` aggregate.  `none` models an
absent or falsy field (`legacy.name || default` substitutes the default for
both), and `some ""` a present-but-empty string, which is also falsy. -/
structure LegacyMacro where
  id : Option String
  name : Option String
  description : Option String
  commands : Option String
  createdAt : Option String
  updatedAt : Option String
deriving DecidableEq, Repr

/-- Parsed content of the legacy `macros.json` file: unparsable JSON (the
parse throws), a JSON value that is not an array, or an array of records. -/
inductive LegacyFile
  | unparsable
  | nonArray
  | array (records : List LegacyMacro)
deriving DecidableEq, Repr

/-- A value of the settings `keyboardBindings` mapping: a string or any
non-string JSON value (skipped by the migration rewrite). -/
inductive BindingVal
  | str (s : String)
  | other
deriving DecidableEq, Repr

/-- The parsed `settings.json` object: its `keyboardBindings` entry (in JSON
object order; `none` models absent/falsy) plus all remaining fields, which
the rewrite copies through verbatim (modelled opaquely). -/
structure SettingsObj where
  keyboardBindings : Option (List (String × BindingVal))
  rest : String
deriving DecidableEq, Repr

/-- Content of `settings.json`: `bad` models empty, unreadable, unparsable,
or non-object content (all of which abort the binding rewrite). -/
inductive SettingsFile
  | bad
  | obj (s : SettingsObj)
deriving DecidableEq, Repr

/-- The filesystem state visible to the macro subsystem.  `macroDir` is the
list of `<name>.macro` files in the `macros/` directory (every routine
filters directory listings down to the `.macro` extension, so other entries
are invisible and are not modelled; the `.migrated` marker is tracked
separately as `markerExists`).  `legacy`/`settings` are `none` when
`macros.json`/`settings.json` does not exist. -/
structure FsState where
  markerExists : Bool
  macroDir : List (String × MacroFile)
  legacy : Option LegacyFile
  backupExists : Bool
  settings : Option SettingsFile
deriving DecidableEq, Repr

/-- `macroData.name || dflt`: JavaScript `||` substitutes the default for a
missing (`undefined`) or empty-string field. -/
def jsOr (v : Option String) (d : String) : String :=
  match v with
  | none => d
  | some s => if s = "" then d else s

/-- `String(legacy.id)`: stringification of a possibly-missing id
(`String(undefined)` is `"undefined"`). -/
def legacyIdString (v : Option String) : String := v.getD "undefined"

def ID_MIN : Int := 9001
def ID_MAX : Int := 9999
def MACRO_EXT : String := ".macro"

/-- `fs.writeFileSync` into the macros directory: overwrite the file of that
name in place, or append a new entry to the directory. -/
def setFile : List (String × MacroFile) → String → MacroFile →
    List (String × MacroFile)
  | [], name, c => [(name, c)]
  | e :: tl, name, c =>
    if e.1 = name then (name, c) :: tl else e :: setFile tl name c

/-- `fs.existsSync` + `fs.readFileSync` of a file in the macros directory. -/
def findFile (st : FsState) (name : String) : Option MacroFile :=
  (st.macroDir.find? (fun e => e.1 = name)).map (fun e => e.2)

/-- `listMacroFiles()`: the `.macro` entries of the directory (all modelled
entries; see `FsState.macroDir`). -/
def listMacroFiles (st : FsState) : List (String × MacroFile) := st.macroDir

/-- `isValidMacroId(id)`: parses to an integer within `[9001, 9999]`.  (The
only non-finite `parseInt` result on our integer model is `NaN`, i.e.
`none`.) -/
def isValidMacroId (id : String) : Bool :=
  match jsParseInt id with
  | none => false
  | some numeric => ID_MIN ≤ numeric && numeric ≤ ID_MAX

/-- `normalizeMacroId(id)`: re-stringified integer parse, `null` when not
integer-parseable. -/
def normalizeMacroId (id : String) : Option String :=
  (jsParseInt id).map intToDecString

/-- `parseMacroFile(filePath)`: `null` for unreadable/empty/unparsable or
non-object content, a falsy `id`, or an out-of-range `id`. -/
def parseMacroFile (content : MacroFile) : Option Macro :=
  match content with
  | .bad => none
  | .record parsed =>
    if parsed.id = "" then none
    else if isValidMacroId parsed.id then some parsed else none

/-! ### Migration (`migration.js`) -/

/-- `readLegacyMacros()`: `null` on read/parse failure, `[]` for a JSON
value that is not an array. -/
def readLegacyMacros (st : FsState) : Option (List LegacyMacro) :=
  match st.legacy with
  | none => none
  | some .unparsable => none
  | some .nonArray => some []
  | some (.array records) => some records

/-- `backupLegacyMacros()`: copy `macros.json` to `macros.json.backup` when
no backup exists; the copy throws (and is caught) when the source is
missing. -/
def backupLegacyMacros (st : FsState) : FsState :=
  if !st.backupExists && st.legacy.isSome then
    { st with backupExists := true }
  else st

/-- `writeMacroFile(macro)` of `migration.js`/storage: persist one record at
`<id>.macro`. -/
def writeMacroFile (st : FsState) (m : Macro) : FsState :=
  { st with macroDir := setFile st.macroDir (m.id ++ MACRO_EXT) (.record m) }

/-- The per-record document built for legacy record number `index`. -/
def migratedMacro (now : String) (index : Nat) (legacy : LegacyMacro) : Macro :=
  let newId := natToDecString (9001 + index)
  { id := newId
    name := jsOr legacy.name ("Macro " ++ newId)
    description := jsOr legacy.description ""
    commands := jsOr legacy.commands ""
    createdAt := jsOr legacy.createdAt now
    updatedAt := jsOr legacy.updatedAt now }

/-- The `forEach` of `migrateLegacyMacrosIfNeeded` that persists one
per-record file per legacy record, at sequential identifiers. -/
def writeMigrated (now : String) : Nat → List LegacyMacro → FsState → FsState
  | _, [], st => st
  | index, legacy :: rest, st =>
    writeMigrated now (index + 1) rest (writeMacroFile st (migratedMacro now index legacy))

/-- The `idMap` entries in insertion order: `String(legacy.id) ↦ newId`. -/
def migrationIdPairs (records : List LegacyMacro) : List (String × String) :=
  (List.range records.length).zipWith
    (fun i r => (legacyIdString r.id, natToDecString (9001 + i))) records

/-- `Map.get`: the most recently inserted binding wins. -/
def mapGetLast (pairs : List (String × String)) (key : String) : Option String :=
  (pairs.reverse.find? (fun p => p.1 = key)).map (fun p => p.2)

/-- `idMap.get(oldId)` followed by the `if (!newId) return;` falsiness
check. -/
def lookupNewId (pairs : List (String × String)) (oldId : String) : Option String :=
  match mapGetLast pairs oldId with
  | none => none
  | some newId => if newId = "" then none else some newId

/-- Whether one binding entry gets rewritten (string value of the form
`Macro:<oldId>` with `<oldId>` in the id map). -/
def bindingRewritable (pairs : List (String × String)) (v : BindingVal) : Bool :=
  match v with
  | .other => false
  | .str value =>
    "Macro:".data.isPrefixOf value.data &&
      (lookupNewId pairs (String.mk (value.data.drop 6))).isSome

/-- The rewrite of one binding entry (`Macro:<oldId>` to `Macro:<newId>`;
everything else unchanged). -/
def rewriteBinding (pairs : List (String × String)) (entry : String × BindingVal) :
    String × BindingVal :=
  match entry.2 with
  | .other => entry
  | .str value =>
    if "Macro:".data.isPrefixOf value.data then
      match lookupNewId pairs (String.mk (value.data.drop 6)) with
      | some newId => (entry.1, .str ("Macro:" ++ newId))
      | none => entry
    else entry

/-- `updateKeyboardBindings(idMap)`: rewrite `Macro:<oldId>` binding values
per the id map and persist the settings only if at least one entry was
rewritten. -/
def updateKeyboardBindings (pairs : List (String × String)) (st : FsState) :
    FsState :=
  match st.settings with
  | none => st
  | some .bad => st
  | some (.obj settings) =>
    match settings.keyboardBindings with
    | none => st
    | some kb =>
      if kb.any (fun entry => bindingRewritable pairs entry.2) then
        { st with settings := some (.obj
            { settings with keyboardBindings := some (kb.map (rewriteBinding pairs)) }) }
      else st

/-- Result of `migrateLegacyMacrosIfNeeded()`. -/
inductive MigResult
  | notMigrated (reason : String)
  | migrated (count : Nat)
deriving DecidableEq, Repr

/-- `migrateLegacyMacrosIfNeeded()`.  `now` is the `new Date().toISOString()`
reading; `ensureMacrosDir` has no observable effect in this model (directory
existence is not separately tracked). -/
def migrateLegacyMacrosIfNeeded (now : String) (st : FsState) :
    MigResult × FsState :=
  if st.markerExists then (.notMigrated "marker", st)
  else if (listMacroFiles st).length > 0 then
    let st1 := if st.legacy.isSome && !st.backupExists then backupLegacyMacros st else st
    (.notMigrated "existing", { st1 with markerExists := true })
  else if st.legacy.isNone then (.notMigrated "no-legacy", st)
  else
    match readLegacyMacros st with
    | none => (.notMigrated "read-failed", st)
    | some legacyMacros =>
      let st1 := backupLegacyMacros st
      if (legacyMacros.length : Int) > ID_MAX - ID_MIN + 1 then
        (.notMigrated "range-exceeded", st1)
      else
        let st2 := writeMigrated now 0 legacyMacros st1
        let st3 := updateKeyboardBindings (migrationIdPairs legacyMacros) st2
        (.migrated legacyMacros.length, { st3 with markerExists := true })

/-! ### Storage (`m98-storage.js`) -/

/-- The numeric sort key of `readMacros`' comparator,
`Number.parseInt(a.id, 10) - Number.parseInt(b.id, 10)` (every record the
comparator sees has a parseable in-range id, so the `NaN` padding value is
never used). -/
def macroIdNum (m : Macro) : Int := (jsParseInt m.id).getD 0

def macroIdLe (a b : Macro) : Prop := macroIdNum a ≤ macroIdNum b

instance : DecidableRel macroIdLe := fun a b => Int.decLe (macroIdNum a) (macroIdNum b)

instance : IsTotal Macro macroIdLe := ⟨fun a b => Int.le_total (macroIdNum a) (macroIdNum b)⟩

instance : IsTrans Macro macroIdLe := ⟨fun _ _ _ => le_trans⟩

/-- The module-level `DEFAULT_MACRO` constant (`loadTime` is the module-load
`new Date().toISOString()` reading). -/
def DEFAULT_MACRO (loadTime : String) : Macro :=
  { id := "9001"
    name := "Macro Sample"
    description := "Finds the hole center using probe"
    commands := "G91 G1 X100 F1000\nG91 G1 X-100 F1000"
    createdAt := loadTime
    updatedAt := loadTime }

/-- `ensureDefaultMacroIfEmpty()`: seed the sample record when the directory
has no macro files, unless an unmigrated legacy file is present. -/
def ensureDefaultMacroIfEmpty (loadTime : String) (st : FsState) : FsState :=
  if (listMacroFiles st).length > 0 then st
  else if st.legacy.isSome && !st.markerExists then st
  else writeMacroFile st (DEFAULT_MACRO loadTime)

/-- `readMacros()`: migrate if needed, seed the default if empty, then parse
every listed `.macro` file (skipping unparsable/invalid ones) and sort by
numeric identifier.  JavaScript `Array.prototype.sort` is stable, so any
stable sort is an exact model; we use insertion sort. -/
def readMacros (now : String) (st : FsState) : List Macro × FsState :=
  let st1 := (migrateLegacyMacrosIfNeeded now st).2
  let st2 := ensureDefaultMacroIfEmpty now st1
  (List.insertionSort macroIdLe
    ((listMacroFiles st2).filterMap (fun e => parseMacroFile e.2)), st2)

/-- `getMacro(id)`: normalize, validate, then read `<normalized>.macro`. -/
def getMacro (st : FsState) (id : String) : Option Macro :=
  match normalizeMacroId id with
  | none => none
  | some normalized =>
    if normalized = "" || !isValidMacroId normalized then none
    else
      match findFile st (normalized ++ MACRO_EXT) with
      | none => none
      | some content => parseMacroFile content

/-- The scan loop of `getNextMacroId`:
`for (let id = ID_MIN; id <= ID_MAX; id += 1)`. -/
def scanFreeId (used : List Int) : Int → Nat → Option Int
  | _, 0 => none
  | id, fuel + 1 => if id ∈ used then scanFreeId used (id + 1) fuel else some id

/-- `getNextMacroId()`: the lowest identifier in `[9001, 9999]` not used by
any current record (`none` models the thrown capacity error). -/
def getNextMacroId (now : String) (st : FsState) : Option String × FsState :=
  let res := readMacros now st
  let used := res.1.filterMap (fun m => jsParseInt m.id)
  ((scanFreeId used ID_MIN 999).map intToDecString, res.2)

/-- The creation payload (`{name, description, commands}` from the request
body; fields may be missing or empty). -/
structure MacroData where
  name : Option String
  description : Option String
  commands : Option String
deriving DecidableEq, Repr

/-- `createMacro(macroData)`: allocate the next id (`.error` models the
thrown capacity error), build the record with defaults and fresh timestamps,
persist it. -/
def createMacro (now : String) (st : FsState) (macroData : MacroData) :
    Except String (Macro × FsState) :=
  match getNextMacroId now st with
  | (none, _) => .error "No available macro IDs in range 9001-9999"
  | (some id, st1) =>
    let newMacro : Macro :=
      { id := id
        name := jsOr macroData.name ("Macro " ++ id)
        description := jsOr macroData.description ""
        commands := jsOr macroData.commands ""
        createdAt := now
        updatedAt := now }
    .ok (newMacro, writeMacroFile st1 newMacro)

/-! ### Expansion (`M98Expander`) -/

/-- `s.trim()`. -/
def jsTrimChars (cs : List Char) : List Char :=
  ((cs.dropWhile (fun c => c.isWhitespace)).reverse.dropWhile
    (fun c => c.isWhitespace)).reverse

def jsTrimString (s : String) : String := String.mk (jsTrimChars s.data)

def jsStartsWith (s pre : String) : Bool := pre.data.isPrefixOf s.data

/-- `s.split('\n')` on the character list. -/
def splitNlAux : List Char → List Char → List String
  | [], acc => [String.mk acc.reverse]
  | c :: cs, acc =>
    if c = '\n' then String.mk acc.reverse :: splitNlAux cs []
    else splitNlAux cs (c :: acc)

def splitOnNewline (s : String) : List String := splitNlAux s.data []

/-- `macro.commands.split('\n').map(l => l.trim()).filter(l => l !== '')`. -/
def expandCommandLines (commands : String) : List String :=
  ((splitOnNewline commands).map jsTrimString).filter (fun line => line ≠ "")

/-- Result of `parseM98Command`. -/
structure ParsedM98 where
  matched : Bool
  macroId : Option String
deriving DecidableEq, Repr

/-- Modelled from the spec: `parseM98Command` lives in
`app/electron/utils/gcode-patterns.js`, which is not among the sources.  Per
the spec (§4.3 and the glossary), the macro-invocation grammar is the fixed
command keyword `M98` plus an optional numeric program-identifier parameter
`P<digits>`; a command that does not fit the grammar at all is reported as
unmatched, and the identifier is absent when only the keyword appears. -/
def parseM98Command (command : String) : ParsedM98 :=
  let t := jsTrimString command
  if t = "M98" then { matched := true, macroId := none }
  else if jsStartsWith t "M98 P" then
    let ds := String.mk (t.data.drop 5)
    if ds ≠ "" && ds.data.all (fun c => c.isDigit) then
      { matched := true, macroId := some ds }
    else { matched := false, macroId := none }
  else { matched := false, macroId := none }

instance {ε α : Type _} [DecidableEq ε] [DecidableEq α] :
    DecidableEq (Except ε α) := fun a b =>
  match a, b with
  | .error e, .error f => decidable_of_iff (e = f) (by simp)
  | .ok x, .ok y => decidable_of_iff (x = y) (by simp)
  | .error _, .ok _ => isFalse (fun h => by cases h)
  | .ok _, .error _ => isFalse (fun h => by cases h)

/-- The typed errors `M98Expander.expand` throws (`error.code` values
`M98_MISSING_ID` and `M98_NOT_FOUND`, the latter carrying the identifier). -/
inductive ExpandError
  | missingId
  | notFound (macroId : String)
deriving DecidableEq, Repr

/-- `M98Expander.expand(command)`: `ok none` models the `null` return for a
command that is not an M98 invocation at all; errors model the throws. -/
def expand (st : FsState) (command : String) :
    Except ExpandError (Option (Macro × List String)) :=
  let parsed := parseM98Command command
  if !parsed.matched then .ok none
  else
    match parsed.macroId with
    | none => .error .missingId
    | some macroId =>
      match getMacro st macroId with
      | none => .error (.notFound macroId)
      | some m => .ok (some (m, expandCommandLines m.commands))

/-! ### Dispatch/execution (`handleExecute` of the macro routes) -/

/-- One command produced by the pipeline's `process` result. -/
structure PipeCmd where
  command : String
  displayCommand : Option String
  commandId : Option String
  meta : List (String × String)
deriving DecidableEq, Repr

/-- The pipeline's `process` result (`message` is `result.result?.message`). -/
structure PipeResult where
  shouldContinue : Bool
  commands : List PipeCmd
  message : Option String
deriving DecidableEq, Repr

/-- The externally observable calls `handleExecute` makes, in order: the
single pipeline `process` call and each awaited `sendCommand` dispatch.
Dispatches are sequential (each `sendCommand` is awaited before the next is
issued), so the trace order is the dispatch order. -/
inductive ExecEvent
  | processCall (command : String)
  | sendCall (command : String)
deriving DecidableEq, Repr

/-- The HTTP response envelope of `handleExecute` (status and body
collapsed to the cases the handler distinguishes). -/
inductive ExecResponse
  | notConnectedError
  | invalidIdError
  | notFoundError
  | pipelineError (message : String)
  | success (message : String)
deriving DecidableEq, Repr

/-- `handleExecute`: gate on controller connectivity, validate the id,
resolve the macro, run the pipeline once, then forward each resulting
command to the controller sequentially.  `connected` is
`cncController && cncController.isConnected`; `pipeline` is
`commandProcessor.instance.process` restricted to its command argument (the
context carries only metadata). -/
def handleExecute (connected : Bool) (st : FsState) (rawId : String)
    (pipeline : String → PipeResult) : ExecResponse × List ExecEvent :=
  if !connected then (.notConnectedError, [])
  else
    match normalizeMacroId rawId with
    | none => (.invalidIdError, [])
    | some macroId =>
      if macroId = "" || !isValidMacroId macroId then (.invalidIdError, [])
      else
        match getMacro st macroId with
        | none => (.notFoundError, [])
        | some m =>
          let m98Command := "M98 P" ++ macroId
          let result := pipeline m98Command
          if !result.shouldContinue then
            (.pipelineError (result.message.getD "Execution failed"),
             [.processCall m98Command])
          else
            (.success ("Macro \"" ++ m.name ++ "\" executed via " ++ m98Command),
             .processCall m98Command ::
               result.commands.map (fun cmd => .sendCall cmd.command))

/-! ### Concrete states used as test fixtures -/

/-- A stored macro whose commands contain an interior blank line. -/
def sampleMacro : Macro :=
  { id := "9001", name := "w", description := ""
    commands := "G91 G1 X100 F1000\n\nG91 G1 X-100 F1000"
    createdAt := "t", updatedAt := "t" }

/-- An already-migrated installation holding only `sampleMacro`. -/
def sampleState : FsState :=
  { markerExists := true
    macroDir := [("9001.macro", .record sampleMacro)]
    legacy := none, backupExists := false, settings := none }

/-- A directory also holding an out-of-range record, an id-less record and
unreadable content, under file names unrelated to the record ids. -/
def mixedState : FsState :=
  { markerExists := true
    macroDir := [("a.macro", .record ⟨"123", "out", "", "", "t", "t"⟩),
                 ("b.macro", .record ⟨"", "noid", "", "", "t", "t"⟩),
                 ("c.macro", .bad),
                 ("9001.macro", .record sampleMacro)]
    legacy := none, backupExists := false, settings := none }

/-! ### Claim theorems -/

/-- **C6.** For every raw command: if it does not match the M98 invocation
grammar, `expand` returns null; if it matches but the numeric identifier
parameter is absent, `expand` raises a missing-identifier error; if the
identifier resolves to no stored macro, `expand` raises a not-found error
carrying that identifier; otherwise `expand` returns the macro together with
the list obtained by splitting the macro's commands text on line boundaries,
trimming each line, and discarding empty lines, preserving the original
order of the non-empty lines. -/
theorem expand_spec (st : FsState) (command : String) :
    ((parseM98Command command).matched = false → expand st command = .ok none) ∧
    ((parseM98Command command).matched = true →
      (parseM98Command command).macroId = none →
      expand st command = .error .missingId) ∧
    (∀ macroId, (parseM98Command command).matched = true →
      (parseM98Command command).macroId = some macroId →
      getMacro st macroId = none →
      expand st command = .error (.notFound macroId)) ∧
    (∀ macroId m, (parseM98Command command).matched = true →
      (parseM98Command command).macroId = some macroId →
      getMacro st macroId = some m →
      expand st command = .ok (some (m,
        ((splitOnNewline m.commands).map jsTrimString).filter
          (fun line => line ≠ "")))) := by
  refine ⟨?_, ?_, ?_, ?_⟩
  · intro h
    simp [expand, h]
  · intro h1 h2
    simp [expand, h1, h2]
  · intro macroId h1 h2 h3
    simp [expand, h1, h2, h3]
  · intro macroId m h1 h2 h3
    simp [expand, expandCommandLines, h1, h2, h3]

/-- Witness for C6 at the spec's own example: the stored commands
`"G91 G1 X100 F1000\n\nG91 G1 X-100 F1000"` expand to exactly the two
non-empty trimmed lines in order, and the error cases fire. -/
theorem expand_spec_witness :
    expand sampleState "M98 P9001" =
      .ok (some (sampleMacro, ["G91 G1 X100 F1000", "G91 G1 X-100 F1000"])) ∧
    expand sampleState "M98" = .error .missingId ∧
    expand sampleState "M98 P9002" = .error (.notFound "9002") ∧
    expand sampleState "G0 X1" = .ok none := by
  refine ⟨?_, ?_, ?_, ?_⟩
  · have h := (expand_spec sampleState "M98 P9001").2.2.2 "9001" sampleMacro
      (by decide) (by decide) (by decide)
    rw [h]
    decide
  · exact (expand_spec sampleState "M98").2.1 (by decide) (by decide)
  · exact (expand_spec sampleState "M98 P9002").2.2.1 "9002"
      (by decide) (by decide) (by decide)
  · exact (expand_spec sampleState "G0 X1").1 (by decide)

/-- **C7.** For every execute invocation: if the device controller does not
report itself connected, the operation fails immediately with a failure
envelope and no pipeline `process` call; otherwise (for a valid identifier
resolving to a stored macro) the pipeline is called once and each command of
its result list is forwarded to the controller in exactly the list order
(each dispatch awaited before the next; the trace lists dispatches in
order), with a single success envelope returned only after every command has
been forwarded, and a `shouldContinue:false` pipeline result instead
short-circuits with a single failure envelope carrying the pipeline's
message and no dispatches. -/
theorem handleExecute_spec (connected : Bool) (st : FsState) (rawId : String)
    (pipeline : String → PipeResult) :
    (connected = false →
      handleExecute connected st rawId pipeline = (.notConnectedError, [])) ∧
    (∀ macroId m, connected = true →
      normalizeMacroId rawId = some macroId →
      macroId ≠ "" → isValidMacroId macroId = true →
      getMacro st macroId = some m →
      ((pipeline ("M98 P" ++ macroId)).shouldContinue = false →
        handleExecute connected st rawId pipeline =
          (.pipelineError
            ((pipeline ("M98 P" ++ macroId)).message.getD "Execution failed"),
           [.processCall ("M98 P" ++ macroId)])) ∧
      ((pipeline ("M98 P" ++ macroId)).shouldContinue = true →
        handleExecute connected st rawId pipeline =
          (.success ("Macro \"" ++ m.name ++ "\" executed via " ++
            ("M98 P" ++ macroId)),
           .processCall ("M98 P" ++ macroId) ::
             (pipeline ("M98 P" ++ macroId)).commands.map
               (fun cmd => .sendCall cmd.command)))) := by
  constructor
  · intro h
    simp [handleExecute, h]
  · intro macroId m hc hn hne hv hg
    constructor
    · intro hp
      simp [handleExecute, hc, hn, hne, hv, hg, hp]
    · intro hp
      simp [handleExecute, hc, hn, hne, hv, hg, hp]

/-- Witness for C7: a three-command pipeline result is forwarded in order
after the single process call; a disconnected controller and a rejecting
pipeline each yield a single failure envelope. -/
theorem handleExecute_spec_witness :
    handleExecute true sampleState "9001"
        (fun _ => ⟨true, [⟨"G0 X1", none, none, []⟩, ⟨"G0 X2", none, none, []⟩,
          ⟨"G0 X3", none, none, []⟩], none⟩) =
      (.success "Macro \"w\" executed via M98 P9001",
       [.processCall "M98 P9001", .sendCall "G0 X1", .sendCall "G0 X2",
        .sendCall "G0 X3"]) ∧
    handleExecute false sampleState "9001" (fun _ => ⟨true, [], none⟩) =
      (.notConnectedError, []) ∧
    handleExecute true sampleState "9001"
        (fun _ => ⟨false, [], some "refused"⟩) =
      (.pipelineError "refused", [.processCall "M98 P9001"]) := by
  refine ⟨?_, ?_, ?_⟩
  · have h := ((handleExecute_spec true sampleState "9001"
      (fun _ => ⟨true, [⟨"G0 X1", none, none, []⟩, ⟨"G0 X2", none, none, []⟩,
        ⟨"G0 X3", none, none, []⟩], none⟩)).2 "9001" sampleMacro rfl
      (by decide) (by decide) (by decide) (by decide)).2 rfl
    rw [h]
    decide
  · exact (handleExecute_spec false sampleState "9001"
      (fun _ => ⟨true, [], none⟩)).1 rfl
  · have h := ((handleExecute_spec true sampleState "9001"
      (fun _ => ⟨false, [], some "refused"⟩)).2 "9001" sampleMacro rfl
      (by decide) (by decide) (by decide) (by decide)).1 rfl
    rw [h]
    decide

/-- `getMacro` only ever looks at the normalized form of its argument
(normalization is idempotent, by the parse/print roundtrip). -/
theorem getMacro_eq_of_normalize {raw nid : String} (st : FsState)
    (h : normalizeMacroId raw = some nid) :
    getMacro st raw = getMacro st nid := by
  obtain ⟨n, hn, rfl⟩ : ∃ n, jsParseInt raw = some n ∧ intToDecString n = nid := by
    rw [normalizeMacroId] at h
    cases hj : jsParseInt raw with
    | none => rw [hj] at h; cases h
    | some n =>
      rw [hj] at h
      exact ⟨n, rfl, by injection h⟩
  have hnid : normalizeMacroId (intToDecString n) = some (intToDecString n) := by
    rw [normalizeMacroId, jsParseInt_intToDecString]
    rfl
  rw [getMacro, h, getMacro, hnid]

/-- **C10.** For every raw identifier input, `getMacro(raw)` equals
`getMacro(normalizeMacroId(raw))` whenever `normalizeMacroId(raw)` is
non-null, and equals null otherwise; consequently distinct textual forms
that parse to the same integer — `"09001"`, `" 9001"`, `"9001.5"`, and
`"9001"` — all resolve to the same stored record. -/
theorem getMacro_normalize_spec (st : FsState) (raw : String) :
    (∀ nid, normalizeMacroId raw = some nid →
      getMacro st raw = getMacro st nid) ∧
    (normalizeMacroId raw = none → getMacro st raw = none) ∧
    getMacro st "09001" = getMacro st "9001" ∧
    getMacro st " 9001" = getMacro st "9001" ∧
    getMacro st "9001.5" = getMacro st "9001" := by
  refine ⟨fun nid h => getMacro_eq_of_normalize st h,
    fun h => by rw [getMacro, h], ?_, ?_, ?_⟩
  · exact getMacro_eq_of_normalize st (by decide)
  · exact getMacro_eq_of_normalize st (by decide)
  · exact getMacro_eq_of_normalize st (by decide)

/-- Witness for C10: on a state storing one record at `9001`, the variant
spellings all resolve to it, and an unparsable identifier resolves to
null. -/
theorem getMacro_normalize_spec_witness :
    getMacro sampleState "09001" = some sampleMacro ∧
    getMacro sampleState " 9001" = some sampleMacro ∧
    getMacro sampleState "9001.5" = some sampleMacro ∧
    getMacro sampleState "x" = none := by
  have h1 := getMacro_normalize_spec sampleState "09001"
  have h2 := getMacro_normalize_spec sampleState " 9001"
  have h3 := getMacro_normalize_spec sampleState "9001.5"
  have h4 := getMacro_normalize_spec sampleState "x"
  exact ⟨h1.2.2.1.trans (by decide), h2.2.2.2.1.trans (by decide),
    h3.2.2.2.2.trans (by decide), h4.2.1 (by decide)⟩

/-- Every record `parseMacroFile` accepts has a non-falsy id parsing into
`[9001, 9999]`. -/
theorem parseMacroFile_valid {content : MacroFile} {m : Macro}
    (h : parseMacroFile content = some m) :
    m.id ≠ "" ∧ ∃ n : Int, jsParseInt m.id = some n ∧
      ID_MIN ≤ n ∧ n ≤ ID_MAX := by
  cases content with
  | bad => cases h
  | record parsed =>
    rw [parseMacroFile] at h
    by_cases h1 : parsed.id = ""
    · rw [if_pos h1] at h; cases h
    · rw [if_neg h1] at h
      by_cases h2 : isValidMacroId parsed.id = true
      · rw [if_pos h2] at h
        injection h with h
        subst h
        refine ⟨h1, ?_⟩
        rw [isValidMacroId] at h2
        cases hj : jsParseInt parsed.id with
        | none => rw [hj] at h2; cases h2
        | some n =>
          rw [hj] at h2
          simp only [Bool.and_eq_true, decide_eq_true_eq] at h2
          exact ⟨n, rfl, h2.1, h2.2⟩
      · rw [if_neg h2] at h; cases h

/-- **C9.** Every record returned by `readMacros` or `getMacro` has an id
that parses (by the code's own `parseInt`-based validation) to an integer in
`[9001, 9999]`: a per-record file whose parsed content is missing an id, or
whose id falls outside the range, is skipped rather than returned,
regardless of the file's name. -/
theorem readMacros_range_invariant (now : String) (st : FsState) :
    (∀ m ∈ (readMacros now st).1, ∃ n : Int,
      jsParseInt m.id = some n ∧ ID_MIN ≤ n ∧ n ≤ ID_MAX) ∧
    (∀ raw m, getMacro st raw = some m → ∃ n : Int,
      jsParseInt m.id = some n ∧ ID_MIN ≤ n ∧ n ≤ ID_MAX) := by
  constructor
  · intro m hm
    rw [readMacros] at hm
    have hm' : m ∈ (listMacroFiles
        (ensureDefaultMacroIfEmpty now
          (migrateLegacyMacrosIfNeeded now st).2)).filterMap
        (fun e => parseMacroFile e.2) :=
      (List.perm_insertionSort macroIdLe _).subset hm
    obtain ⟨e, _, he⟩ := List.mem_filterMap.mp hm'
    exact (parseMacroFile_valid he).2
  · intro raw m h
    rw [getMacro] at h
    split at h
    · cases h
    · split at h
      · cases h
      · split at h
        · cases h
        · exact (parseMacroFile_valid h).2

theorem bindingRewritable_nil (v : BindingVal) :
    bindingRewritable [] v = false := by
  cases v with
  | other => rfl
  | str value => simp [bindingRewritable, lookupNewId, mapGetLast]

theorem migrationIdPairs_nil : migrationIdPairs [] = [] := rfl

theorem updateKeyboardBindings_nil (st : FsState) :
    updateKeyboardBindings [] st = st := by
  rw [updateKeyboardBindings]
  rcases st with ⟨mk, dir, leg, bk, se⟩
  rcases se with _ | sf
  · rfl
  rcases sf with _ | s
  · rfl
  rcases s with ⟨kb, rest⟩
  rcases kb with _ | kbl
  · rfl
  · simp [bindingRewritable_nil]

/-- A fresh install whose legacy file holds a non-array JSON value. -/
def nonArrayState : FsState := ⟨false, [], some .nonArray, false, none⟩

/-- A fresh install whose legacy file fails to parse. -/
def unparsableState : FsState := ⟨false, [], some .unparsable, false, none⟩

/-- **C2 counterexample.** On a legacy file parsing to a non-array JSON
value, `migrateLegacyMacrosIfNeeded` does not return
`{migrated:false, reason:'read-failed'}`: it treats the value as an empty
record list, returns `{migrated:true, count:0}` and writes the marker. -/
theorem migrate_nonArray_counterexample :
    (migrateLegacyMacrosIfNeeded "t" nonArrayState).1 ≠
      .notMigrated "read-failed" ∧
    (migrateLegacyMacrosIfNeeded "t" nonArrayState).1 = .migrated 0 ∧
    (migrateLegacyMacrosIfNeeded "t" nonArrayState).2.markerExists = true := by
  decide

/-- **C2 amended.** With the marker absent, no per-record files and the
legacy file present: content that fails to parse as JSON yields
`{migrated:false, reason:'read-failed'}` with no state change (no marker);
but content parsing to a non-array value is coerced to an empty array, so
migration writes the backup and the marker, writes no per-record files, and
returns `{migrated:true, count:0}`. -/
theorem migrate_readFailed_spec (now : String) (st : FsState)
    (hm : st.markerExists = false) (hd : st.macroDir = []) :
    (st.legacy = some .unparsable →
      migrateLegacyMacrosIfNeeded now st = (.notMigrated "read-failed", st)) ∧
    (st.legacy = some .nonArray →
      migrateLegacyMacrosIfNeeded now st =
        (.migrated 0, { st with markerExists := true, backupExists := true })) := by
  obtain ⟨mk, dir, leg, bk, se⟩ := st
  dsimp only at hm hd
  subst hm
  subst hd
  constructor
  · intro hl
    dsimp only at hl
    subst hl
    simp [migrateLegacyMacrosIfNeeded, listMacroFiles, readLegacyMacros]
  · intro hl
    dsimp only at hl
    subst hl
    cases bk <;>
      simp [migrateLegacyMacrosIfNeeded, listMacroFiles, readLegacyMacros,
        backupLegacyMacros, writeMigrated, migrationIdPairs_nil,
        updateKeyboardBindings_nil, ID_MIN, ID_MAX]

/-- Witness for the amended C2 at the two concrete fresh-install states. -/
theorem migrate_readFailed_spec_witness :
    migrateLegacyMacrosIfNeeded "t" unparsableState =
      (.notMigrated "read-failed", unparsableState) ∧
    migrateLegacyMacrosIfNeeded "t" nonArrayState =
      (.migrated 0,
       { nonArrayState with markerExists := true, backupExists := true }) :=
  ⟨(migrate_readFailed_spec "t" unparsableState rfl rfl).1 rfl,
   (migrate_readFailed_spec "t" nonArrayState rfl rfl).2 rfl⟩

/-- An all-defaults legacy record. -/
def emptyLegacyRecord : LegacyMacro := ⟨none, none, none, none, none, none⟩

/-- A fresh install whose legacy aggregate holds 1000 records. -/
def oversizedState : FsState :=
  ⟨false, [], some (.array (List.replicate 1000 emptyLegacyRecord)), false, none⟩

set_option maxRecDepth 8000 in
/-- **C4 counterexample.** On a 1000-record legacy aggregate with no backup,
migration reports `range-exceeded` without the marker, but it does perform a
write: the legacy backup file is created before the range check. -/
theorem migrate_rangeExceeded_counterexample :
    (migrateLegacyMacrosIfNeeded "t" oversizedState).1 =
      .notMigrated "range-exceeded" ∧
    (migrateLegacyMacrosIfNeeded "t" oversizedState).2 ≠ oversizedState ∧
    (migrateLegacyMacrosIfNeeded "t" oversizedState).2.backupExists = true ∧
    oversizedState.backupExists = false := by
  decide

/-- **C4 amended.** For every legacy aggregate parsing to more than 999
records (marker absent, no per-record files), migration writes no per-record
files and no marker and reports `{migrated:false, reason:'range-exceeded'}`,
but it does back up the legacy file first (a write) when no backup exists. -/
theorem migrate_rangeExceeded_spec (now : String) (st : FsState)
    (records : List LegacyMacro) (hm : st.markerExists = false)
    (hd : st.macroDir = []) (hl : st.legacy = some (.array records))
    (hn : records.length > 999) :
    migrateLegacyMacrosIfNeeded now st =
      (.notMigrated "range-exceeded", { st with backupExists := true }) := by
  obtain ⟨mk, dir, leg, bk, se⟩ := st
  dsimp only at hm hd hl
  subst hm
  subst hd
  subst hl
  have hlen : (records.length : Int) > ID_MAX - ID_MIN + 1 := by
    rw [ID_MAX, ID_MIN]
    omega
  cases bk <;>
    simp [migrateLegacyMacrosIfNeeded, listMacroFiles, readLegacyMacros,
      backupLegacyMacros, hlen]

set_option maxRecDepth 8000 in
/-- Witness for the amended C4 at the concrete 1000-record state. -/
theorem migrate_rangeExceeded_spec_witness :
    migrateLegacyMacrosIfNeeded "t" oversizedState =
      (.notMigrated "range-exceeded",
       { oversizedState with backupExists := true }) :=
  migrate_rangeExceeded_spec "t" oversizedState
    (List.replicate 1000 emptyLegacyRecord) rfl rfl rfl (by simp)

/-- A completely fresh install: no marker, no files, no legacy file. -/
def freshState : FsState := ⟨false, [], none, false, none⟩

/-- **C3 counterexample.** On a fresh install the first call returns
`no-legacy` without writing the marker, so the second call returns
`no-legacy` again, not `{migrated:false, reason:'marker'}`. -/
theorem migrate_idempotent_counterexample :
    (migrateLegacyMacrosIfNeeded "t2"
      (migrateLegacyMacrosIfNeeded "t1" freshState).2).1 ≠
      .notMigrated "marker" ∧
    (migrateLegacyMacrosIfNeeded "t2"
      (migrateLegacyMacrosIfNeeded "t1" freshState).2).1 =
      .notMigrated "no-legacy" := by
  decide

/-- **C3 amended.** A second consecutive `migrateLegacyMacrosIfNeeded` never
migrates and never changes the set of per-record macro files; it returns
`{migrated:false, reason:'marker'}` exactly when the first call left the
marker in place (i.e. it migrated, found existing files, or found the marker
itself), and otherwise repeats the first call's failure result
(`no-legacy`, `read-failed`, or `range-exceeded`). -/
theorem migrate_second_run_spec (st : FsState) (now1 now2 : String) :
    (∀ count,
      (migrateLegacyMacrosIfNeeded now2
        (migrateLegacyMacrosIfNeeded now1 st).2).1 ≠ .migrated count) ∧
    (migrateLegacyMacrosIfNeeded now2
        (migrateLegacyMacrosIfNeeded now1 st).2).2.macroDir =
      (migrateLegacyMacrosIfNeeded now1 st).2.macroDir ∧
    (migrateLegacyMacrosIfNeeded now2
        (migrateLegacyMacrosIfNeeded now1 st).2).1 =
      (if (migrateLegacyMacrosIfNeeded now1 st).2.markerExists = true
       then .notMigrated "marker"
       else (migrateLegacyMacrosIfNeeded now1 st).1) := by
  obtain ⟨mk, dir, leg, bk, se⟩ := st
  cases mk
  case true => simp [migrateLegacyMacrosIfNeeded]
  case false =>
    cases dir with
    | cons e tl =>
      simp [migrateLegacyMacrosIfNeeded, listMacroFiles]
    | nil =>
      cases leg with
      | none => simp [migrateLegacyMacrosIfNeeded, listMacroFiles]
      | some lf =>
        cases lf with
        | unparsable =>
          simp [migrateLegacyMacrosIfNeeded, listMacroFiles, readLegacyMacros]
        | nonArray =>
          cases bk <;>
            simp [migrateLegacyMacrosIfNeeded, listMacroFiles, readLegacyMacros,
              backupLegacyMacros, writeMigrated, migrationIdPairs_nil,
              updateKeyboardBindings_nil, ID_MIN, ID_MAX]
        | array rs =>
          by_cases hlen : (rs.length : Int) > ID_MAX - ID_MIN + 1
          · cases bk <;>
              simp [migrateLegacyMacrosIfNeeded, listMacroFiles,
                readLegacyMacros, backupLegacyMacros, hlen]
          · cases bk <;>
              simp [migrateLegacyMacrosIfNeeded, listMacroFiles,
                readLegacyMacros, backupLegacyMacros, hlen]

/-- Witness for the amended C3: after a real migration (of the empty record
list) the second call reports `marker` and the files are untouched. -/
theorem migrate_second_run_spec_witness :
    (migrateLegacyMacrosIfNeeded "t2"
      (migrateLegacyMacrosIfNeeded "t1" nonArrayState).2).1 =
      .notMigrated "marker" ∧
    (migrateLegacyMacrosIfNeeded "t2"
        (migrateLegacyMacrosIfNeeded "t1" nonArrayState).2).2.macroDir =
      (migrateLegacyMacrosIfNeeded "t1" nonArrayState).2.macroDir := by
  have h := migrate_second_run_spec nonArrayState "t1" "t2"
  refine ⟨h.2.2.trans ?_, h.2.1⟩
  decide

/-- A second record, with a higher identifier than `sampleMacro`. -/
def laterMacro : Macro := ⟨"9005", "b", "", "", "t", "t"⟩

/-- A directory listing the higher identifier first. -/
def unsortedState : FsState :=
  ⟨true, [("9005.macro", .record laterMacro), ("9001.macro", .record sampleMacro)],
    none, false, none⟩

/-- Two distinct files whose records carry the same identifier. -/
def duplicateIdState : FsState :=
  ⟨true, [("a.macro", .record sampleMacro), ("b.macro", .record sampleMacro)],
    none, false, none⟩

/-- **C8 counterexample.** Two distinct `.macro` files whose contents carry
the same identifier are both returned, so the result is not strictly
ascending and contains two records with the same identifier. -/
theorem readMacros_sorted_counterexample :
    (readMacros "t" duplicateIdState).1.map Macro.id = ["9001", "9001"] ∧
    ¬ ((readMacros "t" duplicateIdState).1.map macroIdNum).Nodup ∧
    ¬ List.Pairwise (fun a b => macroIdNum a < macroIdNum b)
        (readMacros "t" duplicateIdState).1 := by
  decide

/-- **C8 amended.** `readMacros` results are always sorted (non-strictly)
ascending by numeric identifier; whenever the returned records' numeric
identifiers are pairwise distinct (which holds in particular when each
file's record id matches its file name, but can fail for distinct files
carrying the same id), the order is strictly ascending with no
duplicates. -/
theorem readMacros_sorted_spec (now : String) (st : FsState) :
    List.Pairwise macroIdLe (readMacros now st).1 ∧
    (((readMacros now st).1.map macroIdNum).Nodup →
      List.Pairwise (fun a b => macroIdNum a < macroIdNum b)
        (readMacros now st).1) := by
  have hle : List.Pairwise macroIdLe (readMacros now st).1 := by
    rw [readMacros]
    exact List.sorted_insertionSort macroIdLe _
  refine ⟨hle, fun hnd => ?_⟩
  have hne : List.Pairwise (fun a b => macroIdNum a ≠ macroIdNum b)
      (readMacros now st).1 := List.pairwise_map.mp hnd
  exact (hle.and hne).imp (fun h => lt_of_le_of_ne h.1 h.2)

/-- Witness for the amended C8: an out-of-order directory with distinct ids
is returned strictly sorted. -/
theorem readMacros_sorted_spec_witness :
    (readMacros "t" unsortedState).1 = [sampleMacro, laterMacro] ∧
    List.Pairwise (fun a b => macroIdNum a < macroIdNum b)
      (readMacros "t" unsortedState).1 := by
  exact ⟨by decide, (readMacros_sorted_spec "t" unsortedState).2 (by decide)⟩

/-- Witness for C9 on a state whose directory also contains an out-of-range
record and an id-less record under unrelated file names: only the valid
record is returned, and its id is in range. -/
theorem readMacros_range_invariant_witness :
    (readMacros "t" mixedState).1 = [sampleMacro] ∧
    (∃ n : Int, jsParseInt sampleMacro.id = some n ∧
      ID_MIN ≤ n ∧ n ≤ ID_MAX) ∧
    getMacro mixedState "123" = none := by
  refine ⟨by decide, ?_, by decide⟩
  exact (readMacros_range_invariant "t" mixedState).1 sampleMacro (by decide)

/-- `scanFreeId` returning an identifier: it is unused, within the scanned
window, and every smaller identifier in the window is used. -/
theorem scanFreeId_some {used : List Int} :
    ∀ (fuel : Nat) (start n : Int), scanFreeId used start fuel = some n →
      start ≤ n ∧ n < start + fuel ∧ n ∉ used ∧
        ∀ k, start ≤ k → k < n → k ∈ used := by
  intro fuel
  induction fuel with
  | zero => intro s n h; cases h
  | succ f ih =>
    intro s n h
    rw [scanFreeId] at h
    by_cases hs : s ∈ used
    · rw [if_pos hs] at h
      obtain ⟨h1, h2, h3, h4⟩ := ih (s + 1) n h
      refine ⟨by omega, by omega, h3, ?_⟩
      intro k hk1 hk2
      rcases eq_or_lt_of_le hk1 with rfl | hlt
      · exact hs
      · exact h4 k (by omega) hk2
    · rw [if_neg hs] at h
      injection h with h
      subst h
      exact ⟨le_refl s, by omega, hs, fun k hk1 hk2 => absurd hk1 (by omega)⟩

/-- `scanFreeId` exhausting its fuel: every identifier in the window is
used. -/
theorem scanFreeId_none {used : List Int} :
    ∀ (fuel : Nat) (start : Int), scanFreeId used start fuel = none →
      ∀ k, start ≤ k → k < start + fuel → k ∈ used := by
  intro fuel
  induction fuel with
  | zero => intro s _ k hk1 hk2; exact absurd hk2 (by omega)
  | succ f ih =>
    intro s h k hk1 hk2
    rw [scanFreeId] at h
    by_cases hs : s ∈ used
    · rw [if_pos hs] at h
      rcases eq_or_lt_of_le hk1 with rfl | hlt
      · exact hs
      · exact ih (s + 1) h k (by omega) (by omega)
    · rw [if_neg hs] at h
      cases h

/-- Converse: a fully used window exhausts the scan. -/
theorem scanFreeId_eq_none {used : List Int} :
    ∀ (fuel : Nat) (start : Int),
      (∀ k, start ≤ k → k < start + fuel → k ∈ used) →
      scanFreeId used start fuel = none := by
  intro fuel
  induction fuel with
  | zero => intro s _; rfl
  | succ f ih =>
    intro s hall
    rw [scanFreeId]
    rw [if_pos (hall s (le_refl s) (by omega))]
    exact ih (s + 1) (fun k hk1 hk2 => hall k (by omega) (by omega))

theorem natToDecString_ne_empty (n : Nat) : natToDecString n ≠ "" := by
  obtain ⟨c, cs, hshape, -, -⟩ := natToDecChars_shape (n + 1) n [] (Nat.succ_pos n)
  intro hcontra
  have hdata : (natToDecString n).data = c :: cs := hshape
  rw [hcontra] at hdata
  exact List.cons_ne_nil c cs hdata.symm

/-- `find?` after `setFile` retrieves exactly the written content. -/
theorem find?_setFile (dir : List (String × MacroFile)) (name : String)
    (c : MacroFile) :
    (setFile dir name c).find? (fun e => e.1 = name) = some (name, c) := by
  induction dir with
  | nil => simp [setFile, List.find?]
  | cons e tl ih =>
    rw [setFile]
    by_cases he : e.1 = name
    · rw [if_pos he]
      simp [List.find?]
    · rw [if_neg he]
      rw [List.find?_cons_of_neg _ (by simp [he])]
      exact ih

/-- Reading back a freshly written record file. -/
theorem findFile_writeMacroFile (st : FsState) (m : Macro) :
    findFile (writeMacroFile st m) (m.id ++ MACRO_EXT) = some (.record m) := by
  rw [writeMacroFile, findFile]
  dsimp only
  rw [find?_setFile]
  rfl

/-- A record persisted under an in-range decimal identifier is returned
intact by a subsequent `getMacro` of that identifier. -/
theorem getMacro_writeMacroFile (st : FsState) (m : Macro) {n : Int}
    (hid : m.id = intToDecString n) (h1 : ID_MIN ≤ n) (h2 : n ≤ ID_MAX) :
    getMacro (writeMacroFile st m) m.id = some m := by
  have hnn : ¬ n < 0 := by rw [ID_MIN] at h1; omega
  have hne : m.id ≠ "" := by
    rw [hid, intToDecString, if_neg hnn]
    exact natToDecString_ne_empty _
  have hvalid : isValidMacroId m.id = true := by
    rw [hid, isValidMacroId, jsParseInt_intToDecString]
    simp [h1, h2]
  have hnorm : normalizeMacroId m.id = some m.id := by
    rw [hid, normalizeMacroId, jsParseInt_intToDecString]
    rfl
  simp only [getMacro, hnorm]
  rw [if_neg (by simp [hne, hvalid])]
  simp only [findFile_writeMacroFile]
  rw [parseMacroFile, if_neg hne, if_pos hvalid]

/-- **C5.** For all valid creation inputs, `createMacro` returns a record
whose id is the lowest identifier in `[9001, 9999]` not used by any record
current at allocation time (an unused integer string within the range), with
both `createdAt` and `updatedAt` stamped to now and defaults substituted for
missing name/description/commands; a subsequent `getMacro` of that id
returns an equal record; and `createMacro` raises the capacity error if and
only if no identifier in the range remains unused. -/
theorem createMacro_spec (now : String) (st : FsState) (macroData : MacroData) :
    (∀ m stF, createMacro now st macroData = .ok (m, stF) →
      ∃ n : Int, ID_MIN ≤ n ∧ n ≤ ID_MAX ∧ m.id = intToDecString n ∧
        (∀ m' ∈ (readMacros now st).1, jsParseInt m'.id ≠ some n) ∧
        (∀ k : Int, ID_MIN ≤ k → k < n →
          ∃ m' ∈ (readMacros now st).1, jsParseInt m'.id = some k) ∧
        m.createdAt = now ∧ m.updatedAt = now ∧
        m.name = jsOr macroData.name ("Macro " ++ m.id) ∧
        m.description = jsOr macroData.description "" ∧
        m.commands = jsOr macroData.commands "" ∧
        getMacro stF m.id = some m) ∧
    ((∃ e, createMacro now st macroData = .error e) ↔
      ∀ k : Int, ID_MIN ≤ k → k ≤ ID_MAX →
        ∃ m' ∈ (readMacros now st).1, jsParseInt m'.id = some k) := by
  have husedmem : ∀ (k : Int),
      k ∈ (readMacros now st).1.filterMap (fun m' => jsParseInt m'.id) ↔
        ∃ m' ∈ (readMacros now st).1, jsParseInt m'.id = some k := by
    intro k
    exact List.mem_filterMap
  constructor
  · intro m stF h
    rw [createMacro] at h
    rcases hg : getNextMacroId now st with ⟨idOpt, st1⟩
    rw [hg] at h
    cases idOpt with
    | none => simp at h
    | some id =>
      simp only [Except.ok.injEq, Prod.mk.injEq] at h
      obtain ⟨hm, hstF⟩ := h
      subst hm
      subst hstF
      simp only [getNextMacroId, Prod.mk.injEq] at hg
      obtain ⟨hg1, hg2⟩ := hg
      obtain ⟨n, hscan, hid⟩ := Option.map_eq_some'.mp hg1
      obtain ⟨hb1, hb2, hnotmem, hleast⟩ := scanFreeId_some 999 ID_MIN n hscan
      have hb2' : n ≤ ID_MAX := by
        rw [ID_MIN] at hb2
        rw [ID_MAX]
        omega
      refine ⟨n, hb1, hb2', hid.symm, ?_, ?_, rfl, rfl, rfl, rfl, rfl, ?_⟩
      · intro m' hm' hjs
        exact hnotmem ((husedmem n).mpr ⟨m', hm', hjs⟩)
      · intro k hk1 hk2
        exact (husedmem k).mp (hleast k hk1 hk2)
      · exact getMacro_writeMacroFile st1 _ hid.symm hb1 hb2'
  · constructor
    · rintro ⟨e, he⟩
      rw [createMacro] at he
      rcases hg : getNextMacroId now st with ⟨idOpt, st1⟩
      rw [hg] at he
      cases idOpt with
      | some id => simp at he
      | none =>
        simp only [getNextMacroId, Prod.mk.injEq] at hg
        obtain ⟨hg1, -⟩ := hg
        have hscan : scanFreeId
            ((readMacros now st).1.filterMap fun m' => jsParseInt m'.id)
            ID_MIN 999 = none := Option.map_eq_none'.mp hg1
        intro k hk1 hk2
        refine (husedmem k).mp (scanFreeId_none 999 ID_MIN hscan k hk1 ?_)
        rw [ID_MAX] at hk2
        rw [ID_MIN] at hk1 ⊢
        omega
    · intro hall
      have hscan : scanFreeId
          ((readMacros now st).1.filterMap fun m' => jsParseInt m'.id)
          ID_MIN 999 = none := by
        apply scanFreeId_eq_none
        intro k hk1 hk2
        refine (husedmem k).mpr (hall k hk1 ?_)
        rw [ID_MIN] at hk1 hk2
        rw [ID_MAX]
        omega
      refine ⟨"No available macro IDs in range 9001-9999", ?_⟩
      rw [createMacro]
      have hg : getNextMacroId now st = (none, (readMacros now st).2) := by
        simp only [getNextMacroId]
        rw [hscan]
        rfl
      rw [hg]

/-- An already-migrated empty installation (reads seed the default record at
`9001`, so creation allocates `9002`). -/
def seededState : FsState := ⟨true, [], none, false, none⟩

/-- Witness for C5: on the seeded state, creation allocates `9002`, stamps
both timestamps, and reading it back returns the equal record. -/
theorem createMacro_spec_witness :
    ∃ m stF, createMacro "T" seededState ⟨none, none, none⟩ = .ok (m, stF) ∧
      m.id = "9002" ∧ m.createdAt = "T" ∧ m.updatedAt = "T" ∧
      getMacro stF m.id = some m := by
  have heq : createMacro "T" seededState ⟨none, none, none⟩ =
      .ok (⟨"9002", "Macro 9002", "", "", "T", "T"⟩,
        ⟨true, [("9001.macro", .record (DEFAULT_MACRO "T")),
          ("9002.macro", .record ⟨"9002", "Macro 9002", "", "", "T", "T"⟩)],
          none, false, none⟩) := by decide
  obtain ⟨n, -, -, -, -, -, -, -, -, -, -, hget⟩ :=
    (createMacro_spec "T" seededState ⟨none, none, none⟩).1 _ _ heq
  exact ⟨_, _, heq, rfl, rfl, rfl, hget⟩

theorem natToDecString_injective {a b : Nat}
    (h : natToDecString a = natToDecString b) : a = b := by
  have ha := jsParseInt_natToDecString a
  rw [h, jsParseInt_natToDecString] at ha
  injection ha with ha
  exact_mod_cast ha.symm

theorem migratedName_injective {a b : Nat}
    (h : natToDecString a ++ MACRO_EXT = natToDecString b ++ MACRO_EXT) :
    a = b := by
  apply natToDecString_injective
  apply String.ext
  have hd : (natToDecString a).data ++ MACRO_EXT.data =
      (natToDecString b).data ++ MACRO_EXT.data := by
    rw [← String.data_append, ← String.data_append, h]
  exact List.append_cancel_right hd

/-- The per-record files `migrateLegacyMacrosIfNeeded` writes (file name and
content) for legacy records numbered from `i`, in input order. -/
def migratedEntries (now : String) : Nat → List LegacyMacro → List (String × MacroFile)
  | _, [] => []
  | i, r :: rest =>
    (natToDecString (9001 + i) ++ MACRO_EXT, .record (migratedMacro now i r)) ::
      migratedEntries now (i + 1) rest

theorem migratedEntries_length (now : String) :
    ∀ (rs : List LegacyMacro) (i : Nat),
      (migratedEntries now i rs).length = rs.length := by
  intro rs
  induction rs with
  | nil => intro i; rfl
  | cons r rest ih => intro i; simp [migratedEntries, ih]

theorem migratedEntries_get (now : String) :
    ∀ (rs : List LegacyMacro) (i j : Nat),
      (migratedEntries now i rs)[j]? = (rs[j]?).map (fun r =>
        (natToDecString (9001 + (i + j)) ++ MACRO_EXT,
         .record (migratedMacro now (i + j) r))) := by
  intro rs
  induction rs with
  | nil => intro i j; simp [migratedEntries]
  | cons r rest ih =>
    intro i j
    cases j with
    | zero => simp [migratedEntries]
    | succ j' =>
      rw [migratedEntries]
      rw [List.getElem?_cons_succ, List.getElem?_cons_succ, ih (i + 1) j']
      have : i + 1 + j' = i + (j' + 1) := by omega
      rw [this]

/-- Writing under a fresh name appends to the directory. -/
theorem setFile_of_not_mem :
    ∀ (dir : List (String × MacroFile)) (name : String) (c : MacroFile),
      (∀ p ∈ dir, p.1 ≠ name) → setFile dir name c = dir ++ [(name, c)] := by
  intro dir
  induction dir with
  | nil => intro name c _; rfl
  | cons e tl ih =>
    intro name c h
    rw [setFile, if_neg (h e (List.mem_cons_self e tl))]
    rw [ih name c (fun p hp => h p (List.mem_cons_of_mem e hp))]
    rfl

/-- The migration write loop appends exactly one fresh per-record file per
legacy record (fresh because no existing file uses a to-be-assigned name). -/
theorem writeMigrated_spec (now : String) :
    ∀ (rs : List LegacyMacro) (i : Nat) (st : FsState),
      (∀ p ∈ st.macroDir, ∀ j : Nat, i ≤ j →
        p.1 ≠ natToDecString (9001 + j) ++ MACRO_EXT) →
      writeMigrated now i rs st =
        { st with macroDir := st.macroDir ++ migratedEntries now i rs } := by
  intro rs
  induction rs with
  | nil =>
    intro i st _
    rw [writeMigrated, migratedEntries]
    cases st
    simp
  | cons r rest ih =>
    intro i st hfresh
    rw [writeMigrated]
    have hw : writeMacroFile st (migratedMacro now i r) =
        { st with macroDir := st.macroDir ++
            [(natToDecString (9001 + i) ++ MACRO_EXT,
              .record (migratedMacro now i r))] } := by
      rw [writeMacroFile]
      rw [show (migratedMacro now i r).id = natToDecString (9001 + i) from rfl]
      rw [setFile_of_not_mem _ _ _ (fun p hp => hfresh p hp i (le_refl i))]
    rw [hw]
    rw [ih (i + 1) _ ?_]
    · rw [migratedEntries]
      simp [List.append_assoc]
    · intro p hp j hj
      rcases List.mem_append.mp hp with hold | hnew
      · exact hfresh p hold j (by omega)
      · rcases List.mem_singleton.mp hnew with rfl
        intro hcontra
        have := migratedName_injective hcontra
        omega

/-- Complete characterization of `updateKeyboardBindings`: the settings are
rewritten entrywise and persisted only when some entry is rewritable;
everything else in the state is untouched. -/
theorem updateKeyboardBindings_shape (pairs : List (String × String))
    (st : FsState) :
    (∀ kb rest, st.settings = some (.obj ⟨some kb, rest⟩) →
      (updateKeyboardBindings pairs st).settings =
        (if kb.any (fun e => bindingRewritable pairs e.2)
         then some (.obj ⟨some (kb.map (rewriteBinding pairs)), rest⟩)
         else st.settings)) ∧
    ((∀ kb rest, st.settings ≠ some (.obj ⟨some kb, rest⟩)) →
      (updateKeyboardBindings pairs st).settings = st.settings) ∧
    (updateKeyboardBindings pairs st).markerExists = st.markerExists ∧
    (updateKeyboardBindings pairs st).macroDir = st.macroDir ∧
    (updateKeyboardBindings pairs st).legacy = st.legacy ∧
    (updateKeyboardBindings pairs st).backupExists = st.backupExists := by
  obtain ⟨mk, dir, leg, bk, se⟩ := st
  rcases se with _ | sf
  · refine ⟨?_, fun _ => rfl, rfl, rfl, rfl, rfl⟩
    intro kb rest h
    cases h
  rcases sf with _ | s
  · refine ⟨?_, fun _ => rfl, rfl, rfl, rfl, rfl⟩
    intro kb rest h
    cases h
  rcases s with ⟨kbo, rest⟩
  rcases kbo with _ | kbl
  · refine ⟨?_, fun _ => rfl, rfl, rfl, rfl, rfl⟩
    intro kb rest h
    cases h
  · refine ⟨?_, fun hne => absurd rfl (hne kbl rest), ?_, ?_, ?_, ?_⟩
    · intro kb r h
      injection h with h
      injection h with h
      injection h with h1 h2
      injection h1 with h1
      subst h1
      subst h2
      rw [updateKeyboardBindings]
      dsimp only
      by_cases hc : kbl.any (fun e => bindingRewritable pairs e.2) = true
      · rw [if_pos hc, if_pos hc]
      · rw [if_neg hc, if_neg hc]
    all_goals
      rw [updateKeyboardBindings]
      dsimp only
      split <;> rfl


/-- **C1.** For every legacy aggregate of `N ≤ 999` records with no existing
per-record files and no marker, `migrateLegacyMacrosIfNeeded` creates
exactly `N` per-record files with identifiers assigned sequentially from
`9001` in input order, preserving each legacy name/description/commands
(substituting defaults for missing fields, per `migratedMacro`), rewrites
every settings keyboard-binding entry of the form `Macro:<oldId>` to
`Macro:<newId>` per the old-to-new identifier map (persisting settings only
if at least one rewrite occurred), writes the marker, and returns
`{migrated:true, count:N}`. -/
theorem migrate_legacy_spec (now : String) (st : FsState)
    (records : List LegacyMacro)
    (hm : st.markerExists = false) (hd : st.macroDir = [])
    (hl : st.legacy = some (.array records)) (hn : records.length ≤ 999) :
    (migrateLegacyMacrosIfNeeded now st).1 = .migrated records.length ∧
    (migrateLegacyMacrosIfNeeded now st).2.markerExists = true ∧
    (migrateLegacyMacrosIfNeeded now st).2.backupExists = true ∧
    (migrateLegacyMacrosIfNeeded now st).2.legacy = st.legacy ∧
    (migrateLegacyMacrosIfNeeded now st).2.macroDir =
      migratedEntries now 0 records ∧
    (migratedEntries now 0 records).length = records.length ∧
    (∀ j : Nat, (migratedEntries now 0 records)[j]? = (records[j]?).map
      (fun r => (natToDecString (9001 + j) ++ MACRO_EXT,
        .record (migratedMacro now j r)))) ∧
    (∀ kb rest, st.settings = some (.obj ⟨some kb, rest⟩) →
      (migrateLegacyMacrosIfNeeded now st).2.settings =
        (if kb.any (fun e => bindingRewritable (migrationIdPairs records) e.2)
         then some (.obj ⟨some (kb.map (rewriteBinding (migrationIdPairs records))),
           rest⟩)
         else st.settings)) ∧
    ((∀ kb rest, st.settings ≠ some (.obj ⟨some kb, rest⟩)) →
      (migrateLegacyMacrosIfNeeded now st).2.settings = st.settings) := by
  obtain ⟨mk, dir, leg, bk, se⟩ := st
  dsimp only at hm hd hl
  subst hm
  subst hd
  subst hl
  have hlen : ¬ ((records.length : Int) > ID_MAX - ID_MIN + 1) := by
    rw [ID_MAX, ID_MIN]
    omega
  have hback : backupLegacyMacros ⟨false, [], some (.array records), bk, se⟩ =
      ⟨false, [], some (.array records), true, se⟩ := by
    cases bk <;> rfl
  have hw : writeMigrated now 0 records
      ⟨false, [], some (.array records), true, se⟩ =
      ⟨false, migratedEntries now 0 records, some (.array records), true, se⟩ := by
    rw [writeMigrated_spec now records 0 _ ?_]
    · simp
    · intro p hp
      cases hp
  have heval : migrateLegacyMacrosIfNeeded now
      ⟨false, [], some (.array records), bk, se⟩ =
      (.migrated records.length,
       { updateKeyboardBindings (migrationIdPairs records)
           ⟨false, migratedEntries now 0 records, some (.array records), true, se⟩
         with markerExists := true }) := by
    simp [migrateLegacyMacrosIfNeeded, listMacroFiles, readLegacyMacros,
      hlen, hback, hw]
  rw [heval]
  have hs := updateKeyboardBindings_shape (migrationIdPairs records)
    ⟨false, migratedEntries now 0 records, some (.array records), true, se⟩
  refine ⟨rfl, rfl, hs.2.2.2.2.2, hs.2.2.2.2.1, hs.2.2.2.1,
    migratedEntries_length now records 0, ?_, ?_, ?_⟩
  · intro j
    have h := migratedEntries_get now records 0 j
    simpa using h
  · intro kb r h
    have hse : se = some (.obj ⟨some kb, r⟩) := h
    subst hse
    exact hs.1 kb r rfl
  · intro hne
    exact hs.2.1 (fun kb r hcontra => hne kb r hcontra)


/-- A legacy record with all fields present. -/
def legacyA : LegacyMacro :=
  ⟨some "A", some "Alpha", some "da", some "G0 X1", some "ca", some "ua"⟩

/-- A legacy record with only an id. -/
def legacyB : LegacyMacro := ⟨some "B", none, none, none, none, none⟩

/-- An unmigrated install: two legacy records, a binding on `Macro:A`, and
an unrelated binding. -/
def legacyInstallState : FsState :=
  ⟨false, [], some (.array [legacyA, legacyB]), false,
   some (.obj ⟨some [("F1", .str "Macro:A"), ("F2", .str "JogLeft")], "restdata"⟩)⟩

/-- Witness for C1 at the spec's example: ids `A`, `B` map to `9001`, `9002`
(defaults filled for `B`), the `Macro:A` binding is rewritten, the unrelated
binding and other settings are untouched. -/
theorem migrate_legacy_spec_witness :
    (migrateLegacyMacrosIfNeeded "T" legacyInstallState).1 = .migrated 2 ∧
    (migrateLegacyMacrosIfNeeded "T" legacyInstallState).2.markerExists = true ∧
    (migrateLegacyMacrosIfNeeded "T" legacyInstallState).2.macroDir =
      [("9001.macro", .record ⟨"9001", "Alpha", "da", "G0 X1", "ca", "ua"⟩),
       ("9002.macro", .record ⟨"9002", "Macro 9002", "", "", "T", "T"⟩)] ∧
    (migrateLegacyMacrosIfNeeded "T" legacyInstallState).2.settings =
      some (.obj ⟨some [("F1", .str "Macro:9001"), ("F2", .str "JogLeft")],
        "restdata"⟩) := by
  have h := migrate_legacy_spec "T" legacyInstallState [legacyA, legacyB]
    rfl rfl rfl (by norm_num)
  refine ⟨h.1, h.2.1, ?_, ?_⟩
  · rw [h.2.2.2.2.1]
    decide
  · rw [h.2.2.2.2.2.2.2.1 [("F1", .str "Macro:A"), ("F2", .str "JogLeft")]
      "restdata" rfl]
    decide

end Mfsender
